import Mathlib

/-!
Verification of the JAdES demo repository (TypeScript sources `app.ts`,
`asn1-helper.ts` and the certificate helper) against its natural-language
specification.  The TypeScript code is shallowly embedded: `node-forge`
certificate records become the `Certificate` structure, forge ASN.1 nodes
become the `Asn1` inductive, JavaScript byte strings become `List Nat`
(each entry a byte value), and runtime exceptions become `Except` errors.
Array.prototype.sort with a user comparator is modelled as V8's TimSort
specialised to arrays shorter than 64 elements, which is the single-run
path: one natural run is detected (and reversed when descending), and the
remaining elements are binary-inserted.
-/

/-- JavaScript String.prototype.split limited to the single-character
separator the app uses (a dot): returns the list of chunks between dots. -/
def splitDot : List Char → List (List Char)
  | [] => [[]]
  | c :: cs =>
    if c = '.' then [] :: splitDot cs
    else
      match splitDot cs with
      | [] => [[c]]
      | h :: t => (c :: h) :: t

/-- parseInt on a chunk of decimal digit characters (used by forge's
oidToDer on the components of a dotted OID string). -/
def parseNatDigits (cs : List Char) : Nat :=
  cs.foldl (fun acc c => 10 * acc + (c.toNat - 48)) 0

/-- Lowercase hex digit characters, as produced by forge's
ByteStringBuffer.toHex. -/
def hexChar (d : Nat) : Char :=
  "0123456789abcdef".data.getD d '0'

/-- Hex encoding of a byte list (forge digest().toHex()). -/
def hexEncode (bs : List Nat) : String :=
  String.mk ((bs.map (fun b => [hexChar (b / 16), hexChar (b % 16)])).flatten)

/-- Value of one hex digit character, accepting both cases as Node's
Buffer.from(s, "hex") does. -/
def hexDigitVal (c : Char) : Option Nat :=
  if 48 ≤ c.toNat ∧ c.toNat ≤ 57 then some (c.toNat - 48)
  else if 97 ≤ c.toNat ∧ c.toNat ≤ 102 then some (c.toNat - 87)
  else if 65 ≤ c.toNat ∧ c.toNat ≤ 70 then some (c.toNat - 55)
  else none

/-- Node Buffer.from(s, "hex"): consume pairs of hex digits, stopping at
the first malformed pair and dropping a trailing odd digit. -/
def hexDecodeChars : List Char → List Nat
  | c1 :: c2 :: rest =>
    match hexDigitVal c1, hexDigitVal c2 with
    | some h, some l => (16 * h + l) :: hexDecodeChars rest
    | _, _ => []
  | _ => []

/-- Node Buffer.from(-, "hex") on a string. -/
def hexDecode (s : String) : List Nat :=
  hexDecodeChars s.data

/-- Standard base64 alphabet (forge.util.encode64). -/
def b64Char (n : Nat) : Char :=
  "ABCDEFGHIJKLMNOPQRSTUVWXYZabcdefghijklmnopqrstuvwxyz0123456789+/".data.getD n 'A'

/-- URL-safe base64 alphabet (Node Buffer.toString("base64url")). -/
def b64UrlChar (n : Nat) : Char :=
  "ABCDEFGHIJKLMNOPQRSTUVWXYZabcdefghijklmnopqrstuvwxyz0123456789-_".data.getD n 'A'

/-- Standard base64 encoding with '=' padding, three input bytes per four
output characters (forge.util.encode64). -/
def encode64Chars : List Nat → List Char
  | [] => []
  | [b1] =>
    [b64Char (b1 / 4), b64Char (b1 % 4 * 16), '=', '=']
  | [b1, b2] =>
    [b64Char (b1 / 4), b64Char (b1 % 4 * 16 + b2 / 16), b64Char (b2 % 16 * 4), '=']
  | b1 :: b2 :: b3 :: rest =>
    b64Char (b1 / 4) :: b64Char (b1 % 4 * 16 + b2 / 16) ::
      b64Char (b2 % 16 * 4 + b3 / 64) :: b64Char (b3 % 64) :: encode64Chars rest

/-- forge.util.encode64 on a byte list. -/
def encode64 (bs : List Nat) : String :=
  String.mk (encode64Chars bs)

/-- URL-safe base64 without padding, three input bytes per up-to-four
output characters (Node Buffer.toString("base64url")). -/
def base64UrlChars : List Nat → List Char
  | [] => []
  | [b1] =>
    [b64UrlChar (b1 / 4), b64UrlChar (b1 % 4 * 16)]
  | [b1, b2] =>
    [b64UrlChar (b1 / 4), b64UrlChar (b1 % 4 * 16 + b2 / 16), b64UrlChar (b2 % 16 * 4)]
  | b1 :: b2 :: b3 :: rest =>
    b64UrlChar (b1 / 4) :: b64UrlChar (b1 % 4 * 16 + b2 / 16) ::
      b64UrlChar (b2 % 16 * 4 + b3 / 64) :: b64UrlChar (b3 % 64) :: base64UrlChars rest

/-- Node Buffer.toString("base64url") on a byte list. -/
def base64UrlOfBytes (bs : List Nat) : String :=
  String.mk (base64UrlChars bs)

/-- Big-endian base-256 digit expansion, with an explicit structural fuel
so that the kernel can evaluate it; `natToBE` instantiates the fuel with a
sufficient bound.  Returns [] for 0. -/
def natToBEFuel : Nat → Nat → List Nat
  | 0, _ => []
  | fuel + 1, n =>
    if n = 0 then []
    else natToBEFuel fuel (n / 256) ++ [n % 256]

/-- Minimal big-endian base-256 bytes of a natural number ([] for 0). -/
def natToBE (n : Nat) : List Nat :=
  natToBEFuel (n + 1) n

/-- Value of a big-endian base-256 byte list. -/
def natOfBE (bs : List Nat) : Nat :=
  bs.foldl (fun acc b => 256 * acc + b) 0

/-- Modelled from the spec: the minimal two's-complement big-endian
encoding of a non-negative integer — "no leading zero unless required for
sign-bit disambiguation".  This is the spec-side reference that
`createSerialNumberAsn1`'s output is compared against. -/
def minimalTwosComplementEncode (n : Nat) : List Nat :=
  let ds := natToBE n
  let bs := if ds.isEmpty then [0] else ds
  if 128 ≤ bs.headD 0 then 0 :: bs else bs

/-- Checks that a byte list is already a minimal two's-complement
encoding of a non-negative value: nonempty, sign bit clear on the leading
byte, and a leading zero byte only when the following byte needs it. -/
def isMinimalIntegerBytes : List Nat → Bool
  | [] => false
  | [b] => b < 128
  | b0 :: b1 :: _ => b0 < 128 && (b0 ≠ 0 || 128 ≤ b1)

/-- Base-128 continuation bytes of an OID component (all carrying the
0x80 continuation bit), high groups first; fuel-structural. -/
def oidCompAux : Nat → Nat → List Nat
  | 0, _ => []
  | fuel + 1, n =>
    if n = 0 then []
    else oidCompAux fuel (n / 128) ++ [128 + n % 128]

/-- DER bytes of a single OID component past the first two
(forge.asn1.oidToDer's per-component loop). -/
def oidComponentDer (n : Nat) : List Nat :=
  oidCompAux (n + 1) (n / 128) ++ [n % 128]

/-- forge.asn1.oidToDer: first two dotted components fold into one byte,
the rest are base-128 encoded with continuation bits. -/
def oidToDer (oid : String) : List Nat :=
  match (splitDot oid.data).map parseNatDigits with
  | p0 :: p1 :: rest => (40 * p0 + p1) :: (rest.map oidComponentDer).flatten
  | [p0] => [40 * p0]
  | [] => []

/-- forge.asn1 node: `prim` is a node created with constructed = false and
raw content bytes, `cons` a node created with constructed = true and an
array of children — exactly the two usage patterns of forge.asn1.create in
asn1-helper.ts.  `tagClass` and `ty` carry forge's numeric Class and Type
values. -/
inductive Asn1 where
  | prim (tagClass : Nat) (ty : Nat) (content : List Nat)
  | cons (tagClass : Nat) (ty : Nat) (children : List Asn1)

/-- forge.asn1.Class.UNIVERSAL. -/
def asn1ClassUniversal : Nat := 0
/-- forge.asn1.Class.CONTEXT_SPECIFIC. -/
def asn1ClassContextSpecific : Nat := 128
/-- forge.asn1.Type.INTEGER. -/
def asn1TypeInteger : Nat := 2
/-- forge.asn1.Type.OCTETSTRING, reused by the source as the value 4 of a
context-specific tag. -/
def asn1TypeOctetString : Nat := 4
/-- forge.asn1.Type.OID. -/
def asn1TypeOid : Nat := 6
/-- forge.asn1.Type.SEQUENCE. -/
def asn1TypeSequence : Nat := 16
/-- forge.asn1.Type.SET. -/
def asn1TypeSet : Nat := 17

/-- DER length octets: short form below 128, long form otherwise. -/
def derLen (n : Nat) : List Nat :=
  if n < 128 then [n]
  else
    let bs := natToBE n
    (128 + bs.length) :: bs

/-- DER serialization of an ASN.1 node (forge.asn1.toDer restricted to the
definite-length nodes this program builds), with an explicit structural
fuel on tree depth so the kernel can evaluate it. -/
def derEncodeF : Nat → Asn1 → List Nat
  | 0, _ => []
  | _ + 1, .prim tagClass ty content =>
    (tagClass + ty) :: derLen content.length ++ content
  | fuel + 1, .cons tagClass ty children =>
    let content := (children.map (derEncodeF fuel)).flatten
    (tagClass + ty + 32) :: derLen content.length ++ content

/-- DER serialization at a fuel bound exceeding the depth of every node
this program constructs (the deepest is the IssuerSerial tree, depth 6). -/
def Asn1.derEncode (a : Asn1) : List Nat :=
  derEncodeF 32 a

/-- One attribute of a forge distinguished name: `name` and `value` can be
absent (undefined in JS), `valueTagClass` is the numeric ASN.1 type of the
value.  Values are byte lists (forge binary strings). -/
structure CertAttribute where
  name : Option String
  value : Option (List Nat)
  valueTagClass : Nat
deriving DecidableEq

/-- A parsed forge X.509 certificate restricted to the fields this
program reads: issuer and subject attribute lists, the serial number as
the hex string forge stores, and the certificate's DER bytes (the result
of forge.pki.certificateToAsn1 followed by toDer, which is also the
payload inside the PEM framing). -/
structure Certificate where
  issuerAttributes : List CertAttribute
  subjectAttributes : List CertAttribute
  serialNumber : String
  derBytes : List Nat
deriving DecidableEq

/-- forge cert.isIssuer(parent): true when `parent` issued `c`, i.e. the
certificate's issuer attributes match the parent's subject attributes. -/
def isIssuer (c parent : Certificate) : Bool :=
  decide (c.issuerAttributes = parent.subjectAttributes)

/-- A PKCS#12 SafeBag as this program uses it: an optional certificate
and an optional private key (key material kept as its PEM string). -/
structure Bag where
  cert : Option Certificate
  key : Option String

/-- A decrypted PKCS#12 container: forge's getBags result, a map from bag
type OID to the list of bags of that type (absent types map to none). -/
structure Pkcs12 where
  bags : String → Option (List Bag)

/-- forge.pki.oids.certBag. -/
def certBagOid : String := "1.2.840.113549.1.12.10.1.3"

/-- forge.pki.oids.pkcs8ShroudedKeyBag. -/
def pkcs8ShroudedKeyBagOid : String := "1.2.840.113549.1.12.10.1.2"

/-- The slice of the forge.pki.oids registry this program can reach when
mapping issuer attribute names to OID strings. -/
def forgeOids (name : String) : Option String :=
  List.lookup name
    [("commonName", "2.5.4.3"),
     ("countryName", "2.5.4.6"),
     ("localityName", "2.5.4.7"),
     ("stateOrProvinceName", "2.5.4.8"),
     ("organizationName", "2.5.4.10"),
     ("organizationalUnitName", "2.5.4.11"),
     ("emailAddress", "1.2.840.113549.1.9.1")]

/-- Insert an element at a position of a list (elements past the position
shift right), the effect of the array shift in V8's BinaryInsertionSort. -/
def insertAt : Nat → α → List α → List α
  | 0, x, l => x :: l
  | _ + 1, x, [] => [x]
  | n + 1, x, a :: l => a :: insertAt n x l

/-- V8 BinaryInsertionSort's inner binary search for the insertion point
of `pivot` within the sorted prefix; fuel-structural (the interval width
strictly shrinks, so `width + 1` fuel suffices). -/
def binSearchLoop (cmp : α → α → Int) (sorted : List α) (pivot : α) :
    Nat → Nat → Nat → Nat
  | 0, left, _ => left
  | fuel + 1, left, right =>
    if left < right then
      let mid := (left + right) / 2
      if cmp pivot (sorted.getD mid pivot) < 0 then
        binSearchLoop cmp sorted pivot fuel left mid
      else
        binSearchLoop cmp sorted pivot fuel (mid + 1) right
    else left

/-- Insertion point of `pivot` in `sorted` as V8 computes it. -/
def binSearch (cmp : α → α → Int) (sorted : List α) (pivot : α) : Nat :=
  binSearchLoop cmp sorted pivot (sorted.length + 1) 0 sorted.length

/-- Extension of the initial run in V8's CountAndMakeRun: keep taking
elements while they continue the ascending (comparator ≥ 0) or strictly
descending (comparator < 0) direction fixed by the first pair. -/
def countRunAux (cmp : α → α → Int) (descending : Bool) :
    α → List α → List α × List α
  | _, [] => ([], [])
  | prev, c :: rest =>
    let keepGoing : Bool :=
      if descending then decide (cmp c prev < 0) else decide (0 ≤ cmp c prev)
    if keepGoing then
      let p := countRunAux cmp descending c rest
      (c :: p.1, p.2)
    else ([], c :: rest)

/-- V8 CountAndMakeRun: detect the initial natural run, reversing it in
place when it is descending; returns the run and the untouched rest. -/
def countRun (cmp : α → α → Int) : List α → List α × List α
  | [] => ([], [])
  | [a] => ([a], [])
  | a :: b :: rest =>
    let descending : Bool := decide (cmp b a < 0)
    let p := countRunAux cmp descending b rest
    (if descending then (a :: b :: p.1).reverse else a :: b :: p.1, p.2)

/-- One step of V8's BinaryInsertionSort: place `x` at the binary-search
position inside the already-sorted prefix. -/
def binaryInsert (cmp : α → α → Int) (sorted : List α) (x : α) : List α :=
  insertAt (binSearch cmp sorted x) x sorted

/-- Array.prototype.sort with a user comparator, as V8 executes it on
arrays shorter than 64 elements (certificate chains always are): TimSort
degenerates to one CountAndMakeRun followed by BinaryInsertionSort of the
remaining elements; no merging happens. -/
def jsSort (cmp : α → α → Int) (l : List α) : List α :=
  let p := countRun cmp l
  p.2.foldl (binaryInsert cmp) p.1

/-- The comparator passed to .sort in CertificateHelper.parsePfxBytes:
an issuer goes after the certificate it issued. -/
def chainComparator (certA certB : Certificate) : Int :=
  if isIssuer certB certA then 1
  else if isIssuer certA certB then -1
  else 0

/-- CertificateHelper.getBags: forge's per-type bag list, with `?? []`
turning an absent bag type into an empty list. -/
def getBags (p : Pkcs12) (bagType : String) : List Bag :=
  (p.bags bagType).getD []

/-- Errors raised by the certificate-helper pipeline.  The source has no
dedicated error classes; failing to find a shrouded key bag surfaces as a
runtime TypeError on an undefined dereference, which this embedding
represents as `noPrivateKey` (the spec's NoPrivateKeyError). -/
inductive PfxError where
  | noPrivateKey
deriving DecidableEq

/-- Modelled from the spec: the external key-format collaborators that
src does not contain (forge.pki.privateKeyToPem, node-rsa's PKCS#1 to
PKCS#8 re-export, jose.importPKCS8) — an injective re-encoding of the key
material, kept abstract as the identity on the PEM string. -/
def convertKeyToPkcs8 (keyPem : String) : String :=
  keyPem

/-- CertificateHelper.getPkcs8PrivateKeyFromPkcs12: take the first
pkcs8ShroudedKeyBag and convert its key; the undefined dereference on a
missing bag or missing key is the `noPrivateKey` failure. -/
def getPkcs8PrivateKeyFromPkcs12 (p : Pkcs12) : Except PfxError String :=
  match getBags p pkcs8ShroudedKeyBagOid with
  | [] => .error .noPrivateKey
  | bag :: _ =>
    match bag.key with
    | none => .error .noPrivateKey
    | some keyPem => .ok (convertKeyToPkcs8 keyPem)

/-- The certificate chain CertificateHelper.parsePfxBytes builds: all
certificates found in cert bags, passed through Array.prototype.sort with
`chainComparator`. -/
def extractedCertificateChain (p : Pkcs12) : List Certificate :=
  jsSort chainComparator ((getBags p certBagOid).filterMap Bag.cert)

/-- The signing certificate parsePfxBytes selects: the first chain
element that is not the issuer of any chain element.  The TypeScript
non-null assertion does not check anything at runtime, so the result is
faithfully an Option. -/
def selectedSigningCertificate (p : Pkcs12) : Option Certificate :=
  (extractedCertificateChain p).find?
    (fun cert => !((extractedCertificateChain p).any (fun c => isIssuer c cert)))

/-- Result record of CertificateHelper.parsePfxBytes. -/
structure ParsePfxResult where
  certificateChain : List Certificate
  signingCertificate : Option Certificate
  signingCertificatePrivateKey : String

/-- CertificateHelper.parsePfxBytes on an already-decrypted container:
build and sort the chain, select the signing certificate, then extract
and convert the private key (whose failure aborts the whole parse). -/
def parsePfxBytes (p : Pkcs12) : Except PfxError ParsePfxResult :=
  let certificateChain := extractedCertificateChain p
  let certificate := selectedSigningCertificate p
  match getPkcs8PrivateKeyFromPkcs12 p with
  | .error e => .error e
  | .ok keyPem =>
    .ok { certificateChain := certificateChain,
          signingCertificate := certificate,
          signingCertificatePrivateKey := keyPem }

/-- CertificateHelper.getCertificateDer: the PEM body with framing lines
removed and line breaks joined, i.e. the standard base64 of the
certificate's DER bytes. -/
def getCertificateDer (c : Certificate) : String :=
  encode64 c.derBytes

/-- CertificateHelper.getCertificateThumbprint: lowercase hex of the
SHA-256 digest of the certificate's DER bytes.  The digest function
itself is the external forge.md.sha256 primitive and is passed in. -/
def getCertificateThumbprint (sha256 : List Nat → List Nat) (c : Certificate) : String :=
  hexEncode (sha256 c.derBytes)

/-- Error raised by Asn1Helper.createIssuerAsn1 when an attribute name
has no entry in the forge OID registry. -/
inductive Asn1Error where
  | unknownOid (name : String)
deriving DecidableEq

/-- The attributes createIssuerAsn1 keeps: those whose name and value are
both defined. -/
def issuerFilteredAttributes (c : Certificate) : List CertAttribute :=
  c.issuerAttributes.filter (fun a => a.name.isSome && a.value.isSome)

/-- One relative distinguished name of Asn1Helper.createIssuerAsn1: a SET
holding one SEQUENCE of the attribute's OID node and value node; fails
when the attribute name has no registered OID. -/
def rdnFromAttribute (a : CertAttribute) : Except Asn1Error Asn1 :=
  match forgeOids (a.name.getD "") with
  | none => .error (.unknownOid (a.name.getD ""))
  | some oid =>
    .ok (.cons asn1ClassUniversal asn1TypeSet
          [.cons asn1ClassUniversal asn1TypeSequence
            [.prim asn1ClassUniversal asn1TypeOid (oidToDer oid),
             .prim asn1ClassUniversal a.valueTagClass (a.value.getD [])]])

/-- The .map over filtered attributes in createIssuerAsn1, stopping at the
first attribute whose OID lookup throws. -/
def buildRdnList : List CertAttribute → Except Asn1Error (List Asn1)
  | [] => .ok []
  | a :: rest =>
    match rdnFromAttribute a with
    | .error e => .error e
    | .ok n =>
      match buildRdnList rest with
      | .error e => .error e
      | .ok ns => .ok (n :: ns)

/-- Asn1Helper.createIssuerAsn1: a SEQUENCE of the RDN SETs built from the
filtered issuer attributes. -/
def createIssuerAsn1 (c : Certificate) : Except Asn1Error Asn1 :=
  (buildRdnList (issuerFilteredAttributes c)).map
    (fun ns => .cons asn1ClassUniversal asn1TypeSequence ns)

/-- The RDN node produced for an attribute whose OID lookup succeeded,
written with total lookups; used to state what createIssuerAsn1 builds. -/
def rdnNodeTotal (a : CertAttribute) : Asn1 :=
  .cons asn1ClassUniversal asn1TypeSet
    [.cons asn1ClassUniversal asn1TypeSequence
      [.prim asn1ClassUniversal asn1TypeOid (oidToDer ((forgeOids (a.name.getD "")).getD "")),
       .prim asn1ClassUniversal a.valueTagClass (a.value.getD [])]]

/-- Asn1Helper.createSerialNumberAsn1: a primitive INTEGER whose content
is the hex-decoding of the certificate's serialNumber string. -/
def createSerialNumberAsn1 (c : Certificate) : Asn1 :=
  .prim asn1ClassUniversal asn1TypeInteger (hexDecode c.serialNumber)

/-- Asn1Helper.createIssuerSerialAsn1: the RFC 5035 IssuerSerial
SEQUENCE( SEQUENCE( [4] SEQUENCE(issuer) ), serialNumber ). -/
def createIssuerSerialAsn1 (c : Certificate) : Except Asn1Error Asn1 :=
  match createIssuerAsn1 c with
  | .error e => .error e
  | .ok issuer =>
    .ok (.cons asn1ClassUniversal asn1TypeSequence
          [.cons asn1ClassUniversal asn1TypeSequence
            [.cons asn1ClassContextSpecific asn1TypeOctetString [issuer]],
           createSerialNumberAsn1 c])

/-- Asn1Helper.encodeAsn1AsBase64: DER-serialize and base64 the node. -/
def encodeAsn1AsBase64 (a : Asn1) : String :=
  encode64 a.derEncode

/-- True exactly on successful Except results; lets hypotheses about
successful ASN.1 construction be discharged by evaluation. -/
def exceptIsOk : Except ε α → Bool
  | .ok _ => true
  | .error _ => false

/-- The sigT expression in app.ts: everything before the first dot of the
ISO timestamp, with the trailing Z re-attached. -/
def sigTOfIso (iso : String) : String :=
  String.mk ((splitDot iso.data).headD []) ++ "Z"

/-- A protected-header value: either a string or an array of strings. -/
inductive HeaderValue where
  | str (s : String)
  | arr (items : List String)
deriving DecidableEq

/-- The setProtectedHeader literal in app.ts's main, as the ordered list
of key/value pairs it passes to the jose signer; building the kid can
fail (unknown issuer OID), which aborts the assembly. -/
def assembleProtectedHeader (sha256 : List Nat → List Nat)
    (chain : List Certificate) (signingCert : Certificate) (nowIso : String) :
    Except Asn1Error (List (String × HeaderValue)) :=
  match createIssuerSerialAsn1 signingCert with
  | .error e => .error e
  | .ok keyIdAsn1 =>
    .ok [("alg", .str "RS256"),
         ("cty", .str "json"),
         ("typ", .str "jose+json"),
         ("kid", .str (encodeAsn1AsBase64 keyIdAsn1)),
         ("x5t#S256", .str (base64UrlOfBytes (hexDecode (getCertificateThumbprint sha256 signingCert)))),
         ("x5c", .arr (chain.map getCertificateDer)),
         ("sigT", .str (sigTOfIso nowIso)),
         ("crit", .arr ["sigT"])]

/-- A strict issuance chain, leaf first: element j issued element i
exactly when j = i + 1.  This rules out any stray issuance relation
(including self-signed elements), matching the spec's "strict issuance
chain". -/
def StrictChain (l : List Certificate) : Prop :=
  ∀ i j : Fin l.length, isIssuer (l.get i) (l.get j) = true ↔ (j : Nat) = (i : Nat) + 1

instance (l : List Certificate) : Decidable (StrictChain l) := by
  unfold StrictChain
  infer_instance

/-- A commonName issuer/subject attribute with the given value bytes. -/
def cnAttr (bytes : List Nat) : CertAttribute :=
  { name := some "commonName", value := some bytes, valueTagClass := 12 }

/-- Demo leaf certificate: subject CN "leaf", issuer CN "mid". -/
def demoLeaf : Certificate :=
  { issuerAttributes := [cnAttr [109, 105, 100]],
    subjectAttributes := [cnAttr [108, 101, 97, 102]],
    serialNumber := "01",
    derBytes := [48, 1, 1] }

/-- Demo intermediate certificate: subject CN "mid", issuer CN "root". -/
def demoMid : Certificate :=
  { issuerAttributes := [cnAttr [114, 111, 111, 116]],
    subjectAttributes := [cnAttr [109, 105, 100]],
    serialNumber := "02",
    derBytes := [48, 2, 2] }

/-- Demo root certificate: subject CN "root", issuer CN "ca" (an issuer
outside the set, so the chain is strict). -/
def demoRoot : Certificate :=
  { issuerAttributes := [cnAttr [99, 97]],
    subjectAttributes := [cnAttr [114, 111, 111, 116]],
    serialNumber := "03",
    derBytes := [48, 3, 3] }

/-- A container whose cert bags hold the 3-chain in the adversarial
encounter order root, leaf, mid, plus one shrouded key bag. -/
def demoPfxRootLeafMid : Pkcs12 :=
  { bags := fun t =>
      if t = certBagOid then
        some [{ cert := some demoRoot, key := none },
              { cert := some demoLeaf, key := none },
              { cert := some demoMid, key := none }]
      else if t = pkcs8ShroudedKeyBagOid then
        some [{ cert := none, key := some "demo-key" }]
      else none }

/-- A container whose cert bags hold the 2-chain mid, leaf (root-first
encounter order), plus one shrouded key bag. -/
def demoPfxMidLeaf : Pkcs12 :=
  { bags := fun t =>
      if t = certBagOid then
        some [{ cert := some demoMid, key := none },
              { cert := some demoLeaf, key := none }]
      else if t = pkcs8ShroudedKeyBagOid then
        some [{ cert := none, key := some "demo-key" }]
      else none }

/-- A container with certificate bags but no shrouded key bag. -/
def demoPfxNoKey : Pkcs12 :=
  { bags := fun t =>
      if t = certBagOid then
        some [{ cert := some demoLeaf, key := none }]
      else none }

/-- A container with a shrouded key bag but zero certificate bags. -/
def demoPfxNoCerts : Pkcs12 :=
  { bags := fun t =>
      if t = pkcs8ShroudedKeyBagOid then
        some [{ cert := none, key := some "demo-key" }]
      else none }

/-- A certificate whose stored serial hex has a redundant leading zero
byte. -/
def demoCertPaddedSerial : Certificate :=
  { issuerAttributes := [cnAttr [99, 97]],
    subjectAttributes := [cnAttr [112, 97, 100]],
    serialNumber := "0001",
    derBytes := [48, 9, 9] }

/-- A certificate whose stored serial hex needs its leading zero byte
(sign-bit disambiguation), so it is already minimal. -/
def demoCertMinimalSerial : Certificate :=
  { issuerAttributes := [cnAttr [99, 97]],
    subjectAttributes := [cnAttr [109, 105, 110]],
    serialNumber := "00ff",
    derBytes := [48, 8, 8] }

/-- A certificate with one issuer attribute that has a name but no value
(forge leaves value undefined for unparsable attribute values). -/
def demoCertNamedNoValue : Certificate :=
  { issuerAttributes := [{ name := some "commonName", value := none, valueTagClass := 19 }],
    subjectAttributes := [cnAttr [110, 118]],
    serialNumber := "04",
    derBytes := [48, 4, 4] }

/-- A certificate with one keepable issuer attribute and one attribute
dropped by the name/value filter. -/
def demoCertMixedAttrs : Certificate :=
  { issuerAttributes :=
      [cnAttr [99, 97],
       { name := none, value := some [1], valueTagClass := 19 }],
    subjectAttributes := [cnAttr [109, 120]],
    serialNumber := "05",
    derBytes := [48, 5, 5] }

/-- A stand-in digest function for witnesses: a fixed 32-byte value (the
theorems only assume the digest yields bytes below 256). -/
def demoSha256 (_bs : List Nat) : List Nat :=
  List.range 32

/-- The fixed instant used by the spec's sigT example. -/
def demoNowIso : String := "2024-03-01T10:15:30.123Z"

theorem splitDot_append (pre rest : List Char) (h : '.' ∉ pre) :
    splitDot (pre ++ '.' :: rest) = pre :: splitDot rest := by
  induction pre with
  | nil => simp [splitDot]
  | cons c cs ih =>
    have hc : c ≠ '.' := fun hc => h (hc ▸ List.mem_cons_self c cs)
    have hcs : '.' ∉ cs := fun hm => h (List.mem_cons_of_mem c hm)
    show splitDot (c :: (cs ++ '.' :: rest)) = (c :: cs) :: splitDot rest
    rw [splitDot, if_neg hc, ih hcs]

/-- Claim C8: the assembled sigT value is the ISO-8601 timestamp with the
sub-second component removed and the trailing Z retained: for any ISO
string whose date-time part contains no dot, everything from the first
dot on is dropped and a Z is appended. -/
theorem sigT_strips_subseconds (pre rest : List Char) (h : '.' ∉ pre) :
    sigTOfIso (String.mk (pre ++ '.' :: rest)) = String.mk pre ++ "Z" := by
  unfold sigTOfIso
  rw [show (String.mk (pre ++ '.' :: rest)).data = pre ++ '.' :: rest from rfl]
  rw [splitDot_append pre rest h]
  rfl

theorem sigT_strips_subseconds_witness :
    sigTOfIso "2024-03-01T10:15:30.123Z" = "2024-03-01T10:15:30Z" := by
  have h := sigT_strips_subseconds "2024-03-01T10:15:30".data "123Z".data (by decide)
  exact h

/-- Claim C9: IssuerSerial construction, DER serialization and base64
encoding are deterministic functions of the certificate: two runs on the
same certificate value yield byte-identical DER and identical base64. -/
theorem issuerSerial_deterministic (c c' : Certificate) (h : c = c') :
    (createIssuerSerialAsn1 c).map Asn1.derEncode =
      (createIssuerSerialAsn1 c').map Asn1.derEncode ∧
    (createIssuerSerialAsn1 c).map encodeAsn1AsBase64 =
      (createIssuerSerialAsn1 c').map encodeAsn1AsBase64 := by
  subst h
  exact ⟨rfl, rfl⟩

theorem issuerSerial_deterministic_witness :
    (createIssuerSerialAsn1 demoLeaf).map Asn1.derEncode =
      (createIssuerSerialAsn1 demoLeaf).map Asn1.derEncode ∧
    (createIssuerSerialAsn1 demoLeaf).map encodeAsn1AsBase64 =
      (createIssuerSerialAsn1 demoLeaf).map encodeAsn1AsBase64 :=
  issuerSerial_deterministic demoLeaf demoLeaf rfl

/-- Claim C6: createIssuerSerialAsn1 produces the RFC 5035 shape
SEQUENCE( SEQUENCE( [4] SEQUENCE(issuer) ), serialNumber ): a two-element
outer SEQUENCE whose first element wraps the issuer SEQUENCE in a
constructed context-specific tag number 4, followed by the INTEGER
serial-number node. -/
theorem issuerSerial_rfc5035_shape (c : Certificate) (issuer : Asn1)
    (h : createIssuerAsn1 c = .ok issuer) :
    createIssuerSerialAsn1 c =
      .ok (.cons asn1ClassUniversal asn1TypeSequence
            [.cons asn1ClassUniversal asn1TypeSequence
              [.cons asn1ClassContextSpecific asn1TypeOctetString [issuer]],
             createSerialNumberAsn1 c]) := by
  unfold createIssuerSerialAsn1
  rw [h]

theorem issuerSerial_rfc5035_shape_witness :
    createIssuerSerialAsn1 demoLeaf =
      .ok (.cons asn1ClassUniversal asn1TypeSequence
            [.cons asn1ClassUniversal asn1TypeSequence
              [.cons asn1ClassContextSpecific asn1TypeOctetString
                [.cons asn1ClassUniversal asn1TypeSequence
                  [rdnNodeTotal (cnAttr [109, 105, 100])]]],
             createSerialNumberAsn1 demoLeaf]) :=
  issuerSerial_rfc5035_shape demoLeaf _ rfl

/-- Claim C4: a PFX container holding no shrouded private-key bag makes
the whole extraction fail with the no-private-key error (the source's
undefined dereference on the absent bag), producing no partial result. -/
theorem missing_key_bag_fails (p : Pkcs12)
    (h : getBags p pkcs8ShroudedKeyBagOid = []) :
    parsePfxBytes p = .error PfxError.noPrivateKey := by
  unfold parsePfxBytes getPkcs8PrivateKeyFromPkcs12
  rw [h]

theorem missing_key_bag_fails_witness :
    parsePfxBytes demoPfxNoKey = .error PfxError.noPrivateKey :=
  missing_key_bag_fails demoPfxNoKey rfl

/-- Claim C10: with zero certificate bags the chain step raises no error:
the chain is empty, the signing-certificate find yields none, a
successful key step still returns a full result, and bag lookup for an
absent bag type returns an empty list. -/
theorem zero_cert_bags_no_chain_error (p : Pkcs12)
    (h : getBags p certBagOid = []) :
    extractedCertificateChain p = [] ∧
    selectedSigningCertificate p = none ∧
    (∀ keyPem, getPkcs8PrivateKeyFromPkcs12 p = .ok keyPem →
      parsePfxBytes p =
        .ok { certificateChain := [], signingCertificate := none,
              signingCertificatePrivateKey := keyPem }) ∧
    (∀ t, p.bags t = none → getBags p t = []) := by
  have hchain : extractedCertificateChain p = [] := by
    unfold extractedCertificateChain
    rw [h]
    rfl
  have hsel : selectedSigningCertificate p = none := by
    unfold selectedSigningCertificate
    rw [hchain]
    rfl
  refine ⟨hchain, hsel, ?_, ?_⟩
  · intro keyPem hk
    unfold parsePfxBytes
    rw [hk, hchain, hsel]
  · intro t ht
    unfold getBags
    rw [ht]
    rfl

theorem zero_cert_bags_no_chain_error_witness :
    extractedCertificateChain demoPfxNoCerts = [] ∧
    selectedSigningCertificate demoPfxNoCerts = none ∧
    parsePfxBytes demoPfxNoCerts =
      .ok { certificateChain := [], signingCertificate := none,
            signingCertificatePrivateKey := convertKeyToPkcs8 "demo-key" } := by
  have h := zero_cert_bags_no_chain_error demoPfxNoCerts rfl
  exact ⟨h.1, h.2.1, h.2.2.1 (convertKeyToPkcs8 "demo-key") rfl⟩

theorem natToBEFuel_congr : ∀ f g n, n < f → n < g →
    natToBEFuel f n = natToBEFuel g n := by
  intro f
  induction f with
  | zero => intro g n hf; omega
  | succ f ih =>
    intro g n hf hg
    cases g with
    | zero => omega
    | succ g =>
      show natToBEFuel (f + 1) n = natToBEFuel (g + 1) n
      rw [natToBEFuel, natToBEFuel]
      by_cases hn : n = 0
      · rw [if_pos hn, if_pos hn]
      · rw [if_neg hn, if_neg hn]
        have hdiv : n / 256 < n := Nat.div_lt_self (Nat.pos_of_ne_zero hn) (by omega)
        rw [ih g (n / 256) (by omega) (by omega)]

theorem natToBE_single (b : Nat) (h0 : 0 < b) (h : b < 256) :
    natToBE b = [b] := by
  unfold natToBE
  rw [natToBEFuel, if_neg (by omega)]
  rw [Nat.div_eq_of_lt h, Nat.mod_eq_of_lt h]
  cases b with
  | zero => omega
  | succ k => rw [natToBEFuel, if_pos rfl]; rfl

theorem natToBE_mul_add (m b : Nat) (hb : b < 256) (hm : 0 < m) :
    natToBE (256 * m + b) = natToBE m ++ [b] := by
  unfold natToBE
  rw [natToBEFuel, if_neg (by omega)]
  have hdiv : (256 * m + b) / 256 = m := by
    rw [Nat.mul_add_div (by omega), Nat.div_eq_of_lt hb]
    omega
  have hmod : (256 * m + b) % 256 = b := by
    rw [Nat.mul_add_mod, Nat.mod_eq_of_lt hb]
  rw [hdiv, hmod]
  rw [natToBEFuel_congr (256 * m + b) (m + 1) m (by omega) (by omega)]

theorem natOfBE_foldl_le (t : List Nat) : ∀ acc : Nat,
    acc ≤ t.foldl (fun acc b => 256 * acc + b) acc := by
  induction t with
  | nil => intro acc; exact Nat.le_refl acc
  | cons x t ih =>
    intro acc
    calc acc ≤ 256 * acc + x := by omega
    _ ≤ t.foldl (fun acc b => 256 * acc + b) (256 * acc + x) := ih _

theorem natOfBE_pos (l : List Nat) (hne : l ≠ []) (hh : l.headD 0 ≠ 0) :
    0 < natOfBE l := by
  cases l with
  | nil => exact absurd rfl hne
  | cons h t =>
    have hh' : h ≠ 0 := hh
    unfold natOfBE
    calc 0 < h := Nat.pos_of_ne_zero hh'
    _ = 256 * 0 + h := by omega
    _ ≤ t.foldl (fun acc b => 256 * acc + b) (256 * 0 + h) := natOfBE_foldl_le t _
    _ = (h :: t).foldl (fun acc b => 256 * acc + b) 0 := rfl

theorem natOfBE_append_singleton (l : List Nat) (b : Nat) :
    natOfBE (l ++ [b]) = 256 * natOfBE l + b := by
  unfold natOfBE
  rw [List.foldl_append]
  rfl

theorem natToBE_natOfBE (bs : List Nat) (hb : ∀ x ∈ bs, x < 256)
    (hne : bs ≠ []) (hhead : bs.headD 0 ≠ 0) :
    natToBE (natOfBE bs) = bs := by
  induction bs using List.reverseRecOn with
  | nil => exact absurd rfl hne
  | append_singleton l b ih =>
    rw [natOfBE_append_singleton]
    have hblt : b < 256 := hb b (by simp)
    cases l with
    | nil =>
      have hb0 : b ≠ 0 := by simpa using hhead
      simp only [natOfBE, List.foldl_nil]
      rw [show 256 * 0 + b = b by omega]
      simpa using natToBE_single b (Nat.pos_of_ne_zero hb0) hblt
    | cons h t =>
      have hh : h ≠ 0 := by simpa using hhead
      have hpos : 0 < natOfBE (h :: t) := natOfBE_pos _ (by simp) (by simpa using hh)
      rw [natToBE_mul_add _ b hblt hpos]
      rw [ih (fun x hx => hb x (by
            simp only [List.cons_append, List.mem_cons, List.mem_append] at hx ⊢
            tauto))
          (by simp) (by simpa using hh)]

theorem hexDigitVal_hexChar (d : Nat) (h : d < 16) :
    hexDigitVal (hexChar d) = some d := by
  interval_cases d <;> rfl

theorem hexDecode_hexEncode (bs : List Nat) (hb : ∀ b ∈ bs, b < 256) :
    hexDecode (hexEncode bs) = bs := by
  induction bs with
  | nil => rfl
  | cons b rest ih =>
    have hblt : b < 256 := hb b (by simp)
    have h1 : b / 16 < 16 := by omega
    have h2 : b % 16 < 16 := by omega
    show hexDecodeChars (hexChar (b / 16) :: hexChar (b % 16) ::
      ((rest.map (fun b => [hexChar (b / 16), hexChar (b % 16)])).flatten)) = b :: rest
    rw [hexDecodeChars, hexDigitVal_hexChar _ h1, hexDigitVal_hexChar _ h2]
    have ih' := ih (fun x hx => hb x (by simp [hx]))
    show (16 * (b / 16) + b % 16) :: hexDecode (hexEncode rest) = b :: rest
    rw [ih', Nat.div_add_mod b 16]

theorem hexDigitVal_lt (c : Char) (v : Nat) (h : hexDigitVal c = some v) :
    v < 16 := by
  unfold hexDigitVal at h
  split at h
  · next hc => injection h with h'; omega
  · split at h
    · next hc => injection h with h'; omega
    · split at h
      · next hc => injection h with h'; omega
      · exact absurd h (by simp)

theorem hexDecodeChars_lt : ∀ (cs : List Char), ∀ b ∈ hexDecodeChars cs, b < 256
  | [] => by simp [hexDecodeChars]
  | [_] => by simp [hexDecodeChars]
  | c1 :: c2 :: rest => by
    intro b hb
    rw [hexDecodeChars] at hb
    split at hb
    · rename_i h l h1 h2
      simp only [List.mem_cons] at hb
      rcases hb with he | hm
      · have hl1 := hexDigitVal_lt c1 h h1
        have hl2 := hexDigitVal_lt c2 l h2
        omega
      · exact hexDecodeChars_lt rest b hm
    · simp at hb

theorem minimal_encode_roundtrip (bs : List Nat) (hb : ∀ x ∈ bs, x < 256)
    (h : isMinimalIntegerBytes bs = true) :
    minimalTwosComplementEncode (natOfBE bs) = bs := by
  match bs, hb, h with
  | [], hb, h => simp [isMinimalIntegerBytes] at h
  | [b], hb, h =>
    have hb128 : b < 128 := by simpa [isMinimalIntegerBytes] using h
    by_cases hb0 : b = 0
    · subst hb0
      rfl
    · have hval : natOfBE [b] = b := by simp [natOfBE]
      rw [hval]
      unfold minimalTwosComplementEncode
      rw [natToBE_single b (Nat.pos_of_ne_zero hb0) (by omega)]
      simp only [List.isEmpty_cons, Bool.false_eq_true, if_false, List.headD_cons]
      rw [if_neg (by omega)]
  | b0 :: b1 :: rest, hb, h =>
    have hflag : b0 < 128 ∧ (b0 ≠ 0 ∨ 128 ≤ b1) := by
      simpa [isMinimalIntegerBytes, Bool.and_eq_true, Bool.or_eq_true,
        decide_eq_true_eq] using h
    by_cases hb0 : b0 = 0
    · subst hb0
      have hb1 : 128 ≤ b1 := by
        rcases hflag.2 with h' | h'
        · exact absurd rfl h'
        · exact h'
      have hdrop : natOfBE (0 :: b1 :: rest) = natOfBE (b1 :: rest) := by
        simp [natOfBE]
      rw [hdrop]
      have hrt : natToBE (natOfBE (b1 :: rest)) = b1 :: rest := by
        apply natToBE_natOfBE (b1 :: rest)
        · intro x hx
          exact hb x (by simp [List.mem_cons] at hx ⊢; tauto)
        · simp
        · simp only [List.headD_cons]
          omega
      unfold minimalTwosComplementEncode
      rw [hrt]
      simp only [List.isEmpty_cons, Bool.false_eq_true, if_false, List.headD_cons]
      rw [if_pos (by omega)]
    · have hrt : natToBE (natOfBE (b0 :: b1 :: rest)) = b0 :: b1 :: rest := by
        apply natToBE_natOfBE (b0 :: b1 :: rest) hb (by simp)
        simpa using hb0
      unfold minimalTwosComplementEncode
      rw [hrt]
      simp only [List.isEmpty_cons, Bool.false_eq_true, if_false, List.headD_cons]
      rw [if_neg (by omega)]

/-- Claim C2 (amended): the INTEGER content bytes are exactly the raw
hex-decoding of the certificate's serialNumber string; they are the
minimal two's-complement big-endian encoding of the serial value
provided the stored hex form is itself already minimal. -/
theorem serialNumber_minimal_encoding (c : Certificate)
    (h : isMinimalIntegerBytes (hexDecode c.serialNumber) = true) :
    createSerialNumberAsn1 c =
      .prim asn1ClassUniversal asn1TypeInteger
        (minimalTwosComplementEncode (natOfBE (hexDecode c.serialNumber))) := by
  unfold createSerialNumberAsn1
  rw [minimal_encode_roundtrip (hexDecode c.serialNumber)
    (hexDecodeChars_lt c.serialNumber.data) h]

theorem serialNumber_minimal_encoding_witness :
    createSerialNumberAsn1 demoCertMinimalSerial =
      .prim asn1ClassUniversal asn1TypeInteger
        (minimalTwosComplementEncode (natOfBE (hexDecode demoCertMinimalSerial.serialNumber))) :=
  serialNumber_minimal_encoding demoCertMinimalSerial (by decide)

theorem serialNumber_minimal_counterexample :
    createSerialNumberAsn1 demoCertPaddedSerial =
      Asn1.prim asn1ClassUniversal asn1TypeInteger [0, 1] ∧
    minimalTwosComplementEncode (natOfBE [0, 1]) = [1] ∧
    ([0, 1] : List Nat) ≠ [1] :=
  ⟨rfl, rfl, by decide⟩

theorem buildRdnList_ok : ∀ (l : List CertAttribute) (ns : List Asn1),
    buildRdnList l = .ok ns → ns = l.map rdnNodeTotal := by
  intro l
  induction l with
  | nil =>
    intro ns h
    simp only [buildRdnList] at h
    injection h with h'
    simp [h'.symm]
  | cons a rest ih =>
    intro ns h
    simp only [buildRdnList] at h
    cases hra : rdnFromAttribute a with
    | error e => rw [hra] at h; exact absurd h (by simp)
    | ok n =>
      rw [hra] at h
      cases hrl : buildRdnList rest with
      | error e => rw [hrl] at h; exact absurd h (by simp)
      | ok ns' =>
        rw [hrl] at h
        injection h with h'
        have hn : n = rdnNodeTotal a := by
          unfold rdnFromAttribute at hra
          cases hl : forgeOids (a.name.getD "") with
          | none => rw [hl] at hra; exact absurd hra (by simp)
          | some oid =>
            rw [hl] at hra
            injection hra with hra'
            rw [← hra']
            unfold rdnNodeTotal
            rw [hl]
            rfl
        rw [← h', hn, ih ns' hrl]
        rfl

/-- Claim C5 (amended): every issuer RDN attribute having both a name and
a value appears, with the OID registered for its name and its value
bytes, in the constructed ASN.1 issuer tree, in input order; an RDN is
silently dropped exactly when it lacks a name or lacks a value. -/
theorem issuer_attrs_roundtrip (c : Certificate) (node : Asn1)
    (h : createIssuerAsn1 c = .ok node) :
    node = .cons asn1ClassUniversal asn1TypeSequence
      ((issuerFilteredAttributes c).map rdnNodeTotal) := by
  unfold createIssuerAsn1 at h
  cases hb : buildRdnList (issuerFilteredAttributes c) with
  | error e => rw [hb] at h; exact absurd h (by simp [Except.map])
  | ok ns =>
    rw [hb] at h
    simp only [Except.map] at h
    injection h with h'
    rw [← h', buildRdnList_ok _ ns hb]

theorem issuer_attrs_roundtrip_witness :
    (Asn1.cons asn1ClassUniversal asn1TypeSequence
      [rdnNodeTotal (cnAttr [99, 97])]) =
    Asn1.cons asn1ClassUniversal asn1TypeSequence
      ((issuerFilteredAttributes demoCertMixedAttrs).map rdnNodeTotal) :=
  issuer_attrs_roundtrip demoCertMixedAttrs _ rfl

theorem issuer_attrs_roundtrip_counterexample :
    demoCertNamedNoValue.issuerAttributes.map CertAttribute.name = [some "commonName"] ∧
    createIssuerAsn1 demoCertNamedNoValue =
      .ok (.cons asn1ClassUniversal asn1TypeSequence []) :=
  ⟨rfl, rfl⟩

/-- Claim C7: the x5t#S256 header value equals the URL-safe unpadded
base64 of the SHA-256 digest of the certificate's DER bytes (the hex
detour through the thumbprint string is lossless). -/
theorem x5t_matches_sha256 (sha256 : List Nat → List Nat)
    (chain : List Certificate) (c : Certificate) (nowIso : String)
    (hd : ∀ b ∈ sha256 c.derBytes, b < 256)
    (hok : exceptIsOk (createIssuerSerialAsn1 c) = true) :
    (assembleProtectedHeader sha256 chain c nowIso).map (List.lookup "x5t#S256") =
      .ok (some (.str (base64UrlOfBytes (sha256 c.derBytes)))) := by
  cases hc : createIssuerSerialAsn1 c with
  | error e => rw [hc] at hok; exact absurd hok (by simp [exceptIsOk])
  | ok kid =>
    unfold assembleProtectedHeader
    rw [hc]
    have hr : hexDecode (getCertificateThumbprint sha256 c) = sha256 c.derBytes := by
      unfold getCertificateThumbprint hexDecode
      exact hexDecode_hexEncode (sha256 c.derBytes) hd
    rw [← hr]
    rfl

theorem x5t_matches_sha256_witness :
    (assembleProtectedHeader demoSha256 [demoLeaf, demoMid] demoLeaf demoNowIso).map
        (List.lookup "x5t#S256") =
      .ok (some (.str (base64UrlOfBytes (demoSha256 demoLeaf.derBytes)))) :=
  x5t_matches_sha256 demoSha256 [demoLeaf, demoMid] demoLeaf demoNowIso
    (by decide) (by decide)

/-- Claim C3 (amended): for a 2-certificate chain the assembled protected
header has exactly the eight documented keys alg, cty, typ, kid,
x5t#S256, x5c, sigT, crit in that order; x5c is the chain's DER strings
in chain (leaf-first) order, so it has length 2; crit is exactly
["sigT"]. -/
theorem header_completeness (sha256 : List Nat → List Nat)
    (chain : List Certificate) (c : Certificate) (nowIso : String)
    (h2 : chain.length = 2)
    (hok : exceptIsOk (createIssuerSerialAsn1 c) = true) :
    (assembleProtectedHeader sha256 chain c nowIso).map (fun h => h.map Prod.fst) =
      .ok ["alg", "cty", "typ", "kid", "x5t#S256", "x5c", "sigT", "crit"] ∧
    (assembleProtectedHeader sha256 chain c nowIso).map (List.lookup "x5c") =
      .ok (some (.arr (chain.map getCertificateDer))) ∧
    (chain.map getCertificateDer).length = 2 ∧
    (assembleProtectedHeader sha256 chain c nowIso).map (List.lookup "crit") =
      .ok (some (.arr ["sigT"])) := by
  cases hc : createIssuerSerialAsn1 c with
  | error e => rw [hc] at hok; exact absurd hok (by simp [exceptIsOk])
  | ok kid =>
    refine ⟨?_, ?_, ?_, ?_⟩
    · unfold assembleProtectedHeader
      rw [hc]
      rfl
    · unfold assembleProtectedHeader
      rw [hc]
      rfl
    · rw [List.length_map, h2]
    · unfold assembleProtectedHeader
      rw [hc]
      rfl

theorem header_completeness_witness :
    (assembleProtectedHeader demoSha256 [demoLeaf, demoMid] demoLeaf demoNowIso).map
        (fun h => h.map Prod.fst) =
      .ok ["alg", "cty", "typ", "kid", "x5t#S256", "x5c", "sigT", "crit"] ∧
    (assembleProtectedHeader demoSha256 [demoLeaf, demoMid] demoLeaf demoNowIso).map
        (List.lookup "x5c") =
      .ok (some (.arr ([demoLeaf, demoMid].map getCertificateDer))) ∧
    ([demoLeaf, demoMid].map getCertificateDer).length = 2 ∧
    (assembleProtectedHeader demoSha256 [demoLeaf, demoMid] demoLeaf demoNowIso).map
        (List.lookup "crit") =
      .ok (some (.arr ["sigT"])) :=
  header_completeness demoSha256 [demoLeaf, demoMid] demoLeaf demoNowIso rfl (by decide)

theorem header_completeness_counterexample :
    (assembleProtectedHeader demoSha256 [demoLeaf, demoMid] demoLeaf demoNowIso).map
        (fun h => (h.map Prod.fst).length) = .ok 8 ∧ (8 : Nat) ≠ 7 :=
  ⟨rfl, by decide⟩

theorem insertAt_perm (n : Nat) (x : α) (l : List α) :
    List.Perm (insertAt n x l) (x :: l) := by
  induction n generalizing l with
  | zero => exact List.Perm.refl _
  | succ n ih =>
    cases l with
    | nil => exact List.Perm.refl _
    | cons a l =>
      show List.Perm (a :: insertAt n x l) (x :: a :: l)
      exact ((ih l).cons a).trans (List.Perm.swap x a l)

theorem countRunAux_append (cmp : α → α → Int) (d : Bool) :
    ∀ (prev : α) (rest : List α),
      (countRunAux cmp d prev rest).1 ++ (countRunAux cmp d prev rest).2 = rest := by
  intro prev rest
  induction rest generalizing prev with
  | nil => rfl
  | cons c rest ih =>
    simp only [countRunAux]
    split
    all_goals split
    all_goals simp [ih c]

theorem countRun_append_perm (cmp : α → α → Int) (l : List α) :
    List.Perm ((countRun cmp l).1 ++ (countRun cmp l).2) l := by
  match l with
  | [] => exact List.Perm.refl _
  | [a] => exact List.Perm.refl _
  | a :: b :: rest =>
    simp only [countRun]
    have hx := countRunAux_append cmp (decide (cmp b a < 0)) b rest
    cases hb : decide (cmp b a < 0) with
    | true =>
      rw [hb] at hx
      simp only [hb, if_true]
      refine ((List.reverse_perm _).append_right _).trans ?_
      rw [List.cons_append, List.cons_append, hx]
    | false =>
      rw [hb] at hx
      simp only [hb, Bool.false_eq_true, if_false]
      rw [List.cons_append, List.cons_append, hx]

theorem foldl_binaryInsert_perm (cmp : α → α → Int) :
    ∀ (rest run : List α),
      List.Perm (rest.foldl (binaryInsert cmp) run) (run ++ rest) := by
  intro rest
  induction rest with
  | nil => intro run; simp
  | cons x rest ih =>
    intro run
    show List.Perm (rest.foldl (binaryInsert cmp) (binaryInsert cmp run x)) (run ++ x :: rest)
    refine (ih (binaryInsert cmp run x)).trans ?_
    refine ((insertAt_perm _ x run).append_right rest).trans ?_
    exact List.perm_middle.symm

theorem jsSort_perm (cmp : α → α → Int) (l : List α) :
    List.Perm (jsSort cmp l) l := by
  unfold jsSort
  exact (foldl_binaryInsert_perm cmp _ _).trans (countRun_append_perm cmp l)

theorem jsSort_pair (cmp : α → α → Int) (a b : α) :
    jsSort cmp [a, b] = if cmp b a < 0 then [b, a] else [a, b] := by
  by_cases h : cmp b a < 0
  · rw [if_pos h]
    simp [jsSort, countRun, countRunAux, h]
  · rw [if_neg h]
    simp [jsSort, countRun, countRunAux, h]

theorem perm_pair_cases {α : Type _} {x y : α} {l : List α}
    (h : List.Perm l [x, y]) : l = [x, y] ∨ l = [y, x] := by
  have hlen : l.length = 2 := h.length_eq
  match l, h, hlen with
  | [], h, hlen => simp at hlen
  | [a], h, hlen => simp at hlen
  | a :: b :: c :: t, h, hlen => simp at hlen
  | [a, b], h, hlen =>
    have ha : a ∈ [x, y] := h.mem_iff.mp (by simp)
    rcases (by simpa using ha : a = x ∨ a = y) with hax | hay
    · subst hax
      have hb : b = y := by
        simpa using List.perm_singleton.mp ((List.perm_cons a).mp h)
      subst hb
      exact Or.inl rfl
    · subst hay
      have h' : List.Perm [a, b] [a, x] := h.trans (List.Perm.swap a x [])
      have hb : b = x := by
        simpa using List.perm_singleton.mp ((List.perm_cons a).mp h')
      subst hb
      exact Or.inr rfl

theorem strictChain_leaf_unique (chain : List Certificate) (hs : StrictChain chain)
    (hlen : 0 < chain.length) :
    (∀ y ∈ chain, isIssuer y (chain.get ⟨0, hlen⟩) = false) ∧
    (∀ x ∈ chain, (∀ y ∈ chain, isIssuer y x = false) → x = chain.get ⟨0, hlen⟩) := by
  constructor
  · intro y hy
    obtain ⟨j, hj⟩ := List.mem_iff_get.mp hy
    rw [← hj]
    cases hv : isIssuer (chain.get j) (chain.get ⟨0, hlen⟩) with
    | false => rfl
    | true =>
      have h0 := (hs j ⟨0, hlen⟩).mp hv
      simp at h0
  · intro x hx hnone
    obtain ⟨i, hi⟩ := List.mem_iff_get.mp hx
    rcases Nat.eq_zero_or_pos i.val with h0 | hpos
    · rw [← hi]
      congr 1
      exact Fin.ext h0
    · obtain ⟨k, hk⟩ : ∃ k, i.val = k + 1 := ⟨i.val - 1, by omega⟩
      have hklt : k < chain.length := by
        have := i.isLt
        omega
      have hiss : isIssuer (chain.get ⟨k, hklt⟩) (chain.get i) = true := by
        apply (hs ⟨k, hklt⟩ i).mpr
        simpa using hk
      have hmem : chain.get ⟨k, hklt⟩ ∈ chain := List.get_mem chain _ _
      rw [hi] at hiss
      rw [hnone _ hmem] at hiss
      exact absurd hiss (by simp)

/-- Claim C1 (amended): for every presentation order of a set of
certificates forming a strict issuance chain, the selected signing
certificate equals the unique chain element that is not an issuer of any
other element; the returned certificateChain is leaf-first, root-last
for chains of length at most 2, while longer chains can be left in
encounter order because the comparator treats incomparable pairs as
equal. -/
theorem chain_order_and_signing_selection (p : Pkcs12) (chain : List Certificate)
    (hs : StrictChain chain)
    (hperm : List.Perm ((getBags p certBagOid).filterMap Bag.cert) chain) :
    (chain.length ≤ 2 → extractedCertificateChain p = chain) ∧
    selectedSigningCertificate p = chain.head? ∧
    (∀ x ∈ chain, ((chain.all fun y => !isIssuer y x) = true ↔ chain.head? = some x)) := by
  have hsortperm : List.Perm (extractedCertificateChain p) chain :=
    (jsSort_perm chainComparator _).trans hperm
  refine ⟨?_, ?_, ?_⟩
  · intro hlen2
    match chain, hs, hperm, hlen2 with
    | [], _, hperm, _ =>
      have hc : (getBags p certBagOid).filterMap Bag.cert = [] :=
        List.perm_nil.mp hperm
      unfold extractedCertificateChain
      rw [hc]
      rfl
    | [x], _, hperm, _ =>
      have hc : (getBags p certBagOid).filterMap Bag.cert = [x] :=
        List.perm_singleton.mp hperm
      unfold extractedCertificateChain
      rw [hc]
      rfl
    | [x, y], hs, hperm, _ =>
      have hxy : isIssuer x y = true := (hs ⟨0, by simp⟩ ⟨1, by simp⟩).mpr rfl
      have hyx : isIssuer y x = false := by
        cases hv : isIssuer y x with
        | false => rfl
        | true =>
          have h0 := (hs ⟨1, by simp⟩ ⟨0, by simp⟩).mp hv
          simp at h0
      rcases perm_pair_cases hperm with hc | hc
      · unfold extractedCertificateChain
        rw [hc, jsSort_pair]
        have h1 : chainComparator y x = 1 := by simp [chainComparator, hxy]
        rw [h1, if_neg (by norm_num)]
      · unfold extractedCertificateChain
        rw [hc, jsSort_pair]
        have h2 : chainComparator x y = -1 := by simp [chainComparator, hyx, hxy]
        rw [h2, if_pos (by norm_num)]
    | x :: y :: z :: t, _, _, hlen2 =>
      exfalso
      rw [List.length_cons, List.length_cons, List.length_cons] at hlen2
      omega
  · cases chain with
    | nil =>
      have hse : extractedCertificateChain p = [] := List.perm_nil.mp hsortperm
      unfold selectedSigningCertificate
      rw [hse]
      rfl
    | cons hd tl =>
      have hlen : 0 < (hd :: tl).length := by simp
      obtain ⟨hA, hB⟩ := strictChain_leaf_unique (hd :: tl) hs hlen
      have hmem : ∀ a, a ∈ extractedCertificateChain p ↔ a ∈ hd :: tl :=
        fun a => hsortperm.mem_iff
      have hPh : (!((extractedCertificateChain p).any (fun c => isIssuer c hd))) = true := by
        simp only [Bool.not_eq_true', List.any_eq_false]
        intro c hc
        have h2 : isIssuer c hd = false := hA c ((hmem c).mp hc)
        simp [h2]
      have hne : (extractedCertificateChain p).find?
          (fun cert => !((extractedCertificateChain p).any (fun c => isIssuer c cert))) ≠
            none := by
        intro hnone
        rw [List.find?_eq_none] at hnone
        exact hnone hd ((hmem hd).mpr (by simp)) hPh
      obtain ⟨y, hy⟩ := Option.ne_none_iff_exists'.mp hne
      have hpy := List.find?_some hy
      have hymem : y ∈ hd :: tl := (hmem y).mp (List.mem_of_find?_eq_some hy)
      have hall : ∀ c ∈ hd :: tl, isIssuer c y = false := by
        have hany : ((extractedCertificateChain p).any (fun c => isIssuer c y)) = false := by
          simpa only [Bool.not_eq_true'] using hpy
        rw [List.any_eq_false] at hany
        intro c hc
        have := hany c ((hmem c).mpr hc)
        simpa using this
      have hyhd : y = hd := hB y hymem hall
      unfold selectedSigningCertificate
      rw [hy, hyhd]
      rfl
  · cases chain with
    | nil =>
      intro x hx
      simp at hx
    | cons hd tl =>
      have hlen : 0 < (hd :: tl).length := by simp
      obtain ⟨hA, hB⟩ := strictChain_leaf_unique (hd :: tl) hs hlen
      intro x hx
      constructor
      · intro hall
        have hys : ∀ y ∈ hd :: tl, isIssuer y x = false := by
          simp only [List.all_eq_true, Bool.not_eq_true'] at hall
          exact hall
        have hxhd : x = hd := hB x hx hys
        rw [hxhd]
        rfl
      · intro hh
        simp only [List.head?_cons, Option.some.injEq] at hh
        subst hh
        simp only [List.all_eq_true, Bool.not_eq_true']
        intro y hy
        exact hA y hy

theorem chain_order_counterexample :
    StrictChain [demoLeaf, demoMid, demoRoot] ∧
    List.Perm ((getBags demoPfxRootLeafMid certBagOid).filterMap Bag.cert)
      [demoLeaf, demoMid, demoRoot] ∧
    extractedCertificateChain demoPfxRootLeafMid = [demoRoot, demoLeaf, demoMid] ∧
    extractedCertificateChain demoPfxRootLeafMid ≠ [demoLeaf, demoMid, demoRoot] := by
  refine ⟨by decide, by decide, by decide, by decide⟩

theorem chain_order_and_signing_selection_witness :
    extractedCertificateChain demoPfxMidLeaf = [demoLeaf, demoMid] ∧
    selectedSigningCertificate demoPfxMidLeaf = some demoLeaf := by
  have h := chain_order_and_signing_selection demoPfxMidLeaf [demoLeaf, demoMid]
    (by decide) (by decide)
  exact ⟨h.1 (by decide), h.2.1.trans rfl⟩
